import Mathlib

/-!
Verification of the caption-editor core of an AI video caption generator.

The definitions below are a shallow embedding of the repository's source:
`VideoEditor.tsx` (history manager, SRT export, export frame loop,
keyboard nudge, add / split caption, canvas word-wrap) and the `Timeline`
component (drag constraint logic, wheel zoom).  JavaScript numbers are
modelled by rationals, arrays by lists, and `undefined` lookups by
`Option`.  All definitions are executable.
-/

namespace CaptionEditor

/-- One timed caption: `{ start, end, text }` from `types.ts`. -/
structure Caption where
  start : ℚ
  stop : ℚ
  text : String
deriving DecidableEq, Repr

/-- `'left' | 'center' | 'right'` from `types.ts`. -/
inductive HorizontalAlign where
  | left
  | center
  | right
deriving DecidableEq, Repr

/-- `'none' | 'shadow' | 'outline'` from `types.ts`. -/
inductive CaptionEffect where
  | noEffect
  | shadow
  | outline
deriving DecidableEq, Repr

/-- `'normal' | 'bold'` from `types.ts`. -/
inductive FontWeight where
  | normal
  | bold
deriving DecidableEq, Repr

/-- The `StyleOptions` record from `types.ts`, `position` flattened to two
fields. -/
structure StyleOptions where
  foregroundColor : String
  foregroundColorOpacity : ℚ
  backgroundColor : String
  backgroundOpacity : ℚ
  fontSize : ℚ
  maxWidth : ℚ
  padding : ℚ
  borderRadius : ℚ
  positionX : ℚ
  positionY : ℚ
  horizontalAlign : HorizontalAlign
  fontFamily : String
  fontWeight : FontWeight
  effect : CaptionEffect
  shadowColor : String
  shadowBlur : ℚ
  shadowOffsetX : ℚ
  shadowOffsetY : ℚ
  strokeColor : String
  strokeWidth : ℚ
deriving DecidableEq, Repr

/-- `DEFAULT_STYLES` from `VideoEditor.tsx`. -/
def DEFAULT_STYLES : StyleOptions where
  foregroundColor := "#FFFFFF"
  foregroundColorOpacity := 1
  backgroundColor := "#000000"
  backgroundOpacity := 6/10
  fontSize := 5
  maxWidth := 80
  padding := 20
  borderRadius := 8
  positionX := 50
  positionY := 90
  horizontalAlign := .center
  fontFamily := "Arial, sans-serif"
  fontWeight := .bold
  effect := .shadow
  shadowColor := "#000000"
  shadowBlur := 5
  shadowOffsetX := 2
  shadowOffsetY := 2
  strokeColor := "#000000"
  strokeWidth := 2

/-- One editor snapshot `{ captions, styles }` (`EditorState` in
`VideoEditor.tsx`). -/
structure EditorState where
  captions : List Caption
  styles : StyleOptions
deriving DecidableEq, Repr

/-- The linear history: the `history` array plus the `historyIndex` cursor
of `VideoEditor.tsx`. -/
structure History where
  snapshots : List EditorState
  cursor : ℕ
deriving DecidableEq, Repr

/-- The snapshot currently rendered (`history[historyIndex]`). -/
def currentState (h : History) : Option EditorState :=
  h.snapshots[h.cursor]?

/-- `updateState` from `VideoEditor.tsx`: apply `updater` to the snapshot at
the cursor; keep `slice(0, newIndex)` of the old history and append the new
snapshot.  A merged write reuses the cursor as the slice point, a non-merged
write uses `cursor + 1` and then advances the cursor.  When the cursor is
out of range the snapshots are left alone but a non-merged call still
advances the cursor (the source's guard only skips the array write). -/
def updateState (updater : EditorState → EditorState) (mergeWithLast : Bool)
    (h : History) : History :=
  match h.snapshots[h.cursor]? with
  | none => { h with cursor := if mergeWithLast then h.cursor else h.cursor + 1 }
  | some st =>
      let newIndex := if mergeWithLast then h.cursor else h.cursor + 1
      { snapshots := h.snapshots.take newIndex ++ [updater st]
        cursor := newIndex }

/-- `undo` from `VideoEditor.tsx`: decrement the cursor when `canUndo`. -/
def undo (h : History) : History :=
  if 0 < h.cursor then { h with cursor := h.cursor - 1 } else h

/-- `redo` from `VideoEditor.tsx`: increment the cursor when `canRedo`
(`historyIndex < history.length - 1`). -/
def redo (h : History) : History :=
  if h.cursor + 1 < h.snapshots.length then { h with cursor := h.cursor + 1 } else h

/-- A sequence of merged commits, applied left to right. -/
def applyMerged (us : List (EditorState → EditorState)) (h : History) : History :=
  us.foldl (fun acc u => updateState u true acc) h

lemma updateState_merge_last (h : History) (v : EditorState → EditorState)
    (hc : h.cursor + 1 = h.snapshots.length) :
    (updateState v true h).cursor = h.cursor ∧
      (updateState v true h).snapshots.length = h.snapshots.length := by
  have hlt : h.cursor < h.snapshots.length := by omega
  simp only [updateState, List.getElem?_eq_getElem hlt]
  constructor
  · rfl
  · simp [List.length_take]
    omega

lemma applyMerged_last (us : List (EditorState → EditorState)) (h : History)
    (hc : h.cursor + 1 = h.snapshots.length) :
    (applyMerged us h).cursor = h.cursor ∧
      (applyMerged us h).snapshots.length = h.snapshots.length := by
  induction us generalizing h with
  | nil => exact ⟨rfl, rfl⟩
  | cons u us ih =>
      have hstep := updateState_merge_last h u hc
      have hc2 : (updateState u true h).cursor + 1 =
          (updateState u true h).snapshots.length := by omega
      have := ih (updateState u true h) hc2
      simp only [applyMerged, List.foldl_cons] at *
      omega

/-- A style record with whole-number fields, used as concrete test data
(kernel evaluation of rational literals stays cheap on it). -/
def exStyles : StyleOptions where
  foregroundColor := "#FFFFFF"
  foregroundColorOpacity := 1
  backgroundColor := "#000000"
  backgroundOpacity := 1
  fontSize := 5
  maxWidth := 80
  padding := 20
  borderRadius := 8
  positionX := 50
  positionY := 90
  horizontalAlign := .center
  fontFamily := "Arial, sans-serif"
  fontWeight := .bold
  effect := .shadow
  shadowColor := "#000000"
  shadowBlur := 5
  shadowOffsetX := 2
  shadowOffsetY := 2
  strokeColor := "#000000"
  strokeWidth := 2

/-- A concrete snapshot used as test data. -/
def exState0 : EditorState := { captions := [], styles := exStyles }

/-- A second concrete snapshot used as test data. -/
def exState1 : EditorState :=
  { captions := [⟨0, 1, "x"⟩], styles := exStyles }

/-- A concrete two-entry history with the cursor on the last entry. -/
def exHistory : History := { snapshots := [exState0, exState1], cursor := 1 }

/-- C2: the claim quantifies over histories with the cursor at any valid
index, but `updateState` slices the history at the new index before
appending, so redo entries are dropped: from `{snapshots := [s0, s1],
cursor := 0}` a single non-merged commit yields 2 snapshots, not 3. -/
theorem C2_counterexample :
    ¬ ((updateState id false
          { snapshots := [exState0, exState1], cursor := 0 }).snapshots.length =
        ({ snapshots := [exState0, exState1], cursor := 0 } : History).snapshots.length
          + 1) := by
  decide

/-- C2 (amended): when the cursor is at the last index, a merged commit
replaces the entry at the cursor in place (same length, same cursor, same
earlier entries) and any sequence of merged commits followed by one final
non-merged commit increases `history.snapshots.length` by exactly 1.  (When
redo entries exist beyond the cursor, any commit first truncates them; the
original claim fails there.) -/
theorem C2_commit_growth (h : History) (st : EditorState)
    (hst : currentState h = some st)
    (hc : h.cursor + 1 = h.snapshots.length) :
    (∀ v : EditorState → EditorState,
        (updateState v true h).cursor = h.cursor ∧
        (updateState v true h).snapshots.length = h.snapshots.length ∧
        (updateState v true h).snapshots[h.cursor]? = some (v st) ∧
        ∀ j, j < h.cursor →
          (updateState v true h).snapshots[j]? = h.snapshots[j]?) ∧
    ∀ (us : List (EditorState → EditorState)) (u : EditorState → EditorState),
        (updateState u false (applyMerged us h)).snapshots.length =
          h.snapshots.length + 1 := by
  have hlt : h.cursor < h.snapshots.length := by omega
  have hget : h.snapshots[h.cursor]? = some st := hst
  constructor
  · intro v
    have e1 : (updateState v true h).snapshots =
        h.snapshots.take h.cursor ++ [v st] := by
      simp [updateState, hget]
    have htk : (h.snapshots.take h.cursor).length = h.cursor := by
      simp [List.length_take]
      omega
    refine ⟨by simp [updateState, hget], ?_, ?_, ?_⟩
    · rw [e1]
      simp [htk]
      omega
    · rw [e1, List.getElem?_append_right (by omega), htk]
      simp
    · intro j hj
      rw [e1, List.getElem?_append_left (by omega)]
      exact List.getElem?_take_of_lt hj
  · intro us u
    obtain ⟨hcur, hlen⟩ := applyMerged_last us h hc
    have hlt2 : (applyMerged us h).cursor < (applyMerged us h).snapshots.length := by
      omega
    have hst2 : (applyMerged us h).snapshots[(applyMerged us h).cursor]? =
        some ((applyMerged us h).snapshots[(applyMerged us h).cursor]) :=
      List.getElem?_eq_getElem hlt2
    simp [updateState, hst2, List.length_take]
    omega

/-- C2 witness: at a concrete two-snapshot history with the cursor on the
last entry, one merged commit followed by a non-merged commit grows the
history from 2 to 3 entries. -/
theorem C2_commit_growth_witness :
    currentState exHistory = some exState1 ∧
    exHistory.cursor + 1 = exHistory.snapshots.length ∧
    (updateState id false (applyMerged [id] exHistory)).snapshots.length =
      exHistory.snapshots.length + 1 :=
  ⟨by decide, by decide,
    (C2_commit_growth exHistory exState1 (by decide) (by decide)).2 [id] id⟩

/-- C3: for a history with a valid cursor, `undo` followed by `redo`
restores exactly the snapshot current before the undo (the history itself is
restored, hence the rendered snapshot agrees structurally); `undo` is a
no-op at cursor 0 and `redo` is a no-op at the last index. -/
theorem C3_undo_redo (h : History) (hc : h.cursor < h.snapshots.length) :
    (0 < h.cursor →
        redo (undo h) = h ∧
        currentState (redo (undo h)) = currentState h) ∧
    (h.cursor = 0 → undo h = h) ∧
    (h.cursor + 1 = h.snapshots.length → redo h = h) := by
  refine ⟨fun hpos => ?_, fun h0 => ?_, fun hlast => ?_⟩
  · have hredo : redo (undo h) = h := by
      simp only [undo, if_pos hpos, redo]
      have hstep : h.cursor - 1 + 1 = h.cursor := by omega
      simp [hstep, hc]
    exact ⟨hredo, by rw [hredo]⟩
  · simp [undo, h0]
  · simp only [redo]
    rw [if_neg (by omega)]

/-- C3 witness: on the concrete history, undo then redo restores the
history and the rendered snapshot. -/
theorem C3_undo_redo_witness :
    exHistory.cursor < exHistory.snapshots.length ∧
    redo (undo exHistory) = exHistory ∧
    currentState (redo (undo exHistory)) = currentState exHistory :=
  ⟨by decide, ((C3_undo_redo exHistory (by decide)).1 (by decide)).1,
    ((C3_undo_redo exHistory (by decide)).1 (by decide)).2⟩

/-- ECMAScript ToIntegerOrInfinity: truncation toward zero, as applied by
`Date.prototype.setSeconds` to its argument. -/
def jsTrunc (q : ℚ) : ℤ := if 0 ≤ q then ⌊q⌋ else -⌊-q⌋

/-- Two-digit zero padding, as produced inside `toISOString`. -/
def pad2 (n : ℕ) : String := if n < 10 then "0" ++ toString n else toString n

/-- `formatSRTTime` from `VideoEditor.tsx`: `new Date(0)` followed by
`date.setSeconds(seconds)`.  ECMAScript MakeTime applies ToIntegerOrInfinity
to the seconds argument, so the fractional part is dropped and the date's
millisecond field stays 0.  `toISOString().substr(11, 12)` yields the time
of day `HH:MM:SS.mmm` (with `mmm = 000`), and `replace` turns the dot into
a comma. -/
def formatSRTTime (seconds : ℚ) : String :=
  let t : ℕ := ((jsTrunc seconds) % 86400).toNat
  pad2 (t / 3600) ++ ":" ++ pad2 (t % 3600 / 60) ++ ":" ++ pad2 (t % 60) ++ ",000"

/-- The string built by `handleDownloadSRT` in `VideoEditor.tsx`:
`captions.map((caption, index) => ...).join('\n')` where each block is
index+1, newline, start ` --> ` end, newline, text, newline. -/
def srtContent (captions : List Caption) : String :=
  String.intercalate "\n" (captions.enum.map (fun p =>
    toString (p.1 + 1) ++ "\n" ++ formatSRTTime p.2.start ++ " --> " ++
      formatSRTTime p.2.stop ++ "\n" ++ p.2.text ++ "\n"))

/-- C4: SRT export of `{0,1,"A"}, {1.5,2,"B"}`.  The code's
`Date.setSeconds` truncates fractional seconds, so caption B's start 1.5
renders as `00:00:01,000`, not the claimed `00:00:01,500`; the produced
string differs from the claimed one exactly there. -/
theorem C4_srt_truncates_milliseconds :
    srtContent [⟨0, 1, "A"⟩, ⟨3/2, 2, "B"⟩] =
      "1\n00:00:00,000 --> 00:00:01,000\nA\n\n2\n00:00:01,000 --> 00:00:02,000\nB\n" ∧
    srtContent [⟨0, 1, "A"⟩, ⟨3/2, 2, "B"⟩] ≠
      "1\n00:00:00,000 --> 00:00:01,000\nA\n\n2\n00:00:01,500 --> 00:00:02,000\nB\n" := by
  have t0 : jsTrunc 0 = 0 := by rw [jsTrunc, if_pos le_rfl]; norm_num
  have t1 : jsTrunc 1 = 1 := by rw [jsTrunc, if_pos (by norm_num)]; norm_num
  have t32 : jsTrunc (3/2) = 1 := by rw [jsTrunc, if_pos (by norm_num)]; norm_num
  have t2 : jsTrunc 2 = 2 := by rw [jsTrunc, if_pos (by norm_num)]; norm_num
  have f0 : formatSRTTime 0 = "00:00:00,000" := by rw [formatSRTTime, t0]; rfl
  have f1 : formatSRTTime 1 = "00:00:01,000" := by rw [formatSRTTime, t1]; rfl
  have f32 : formatSRTTime (3/2) = "00:00:01,000" := by
    rw [formatSRTTime, t32]; rfl
  have f2 : formatSRTTime 2 = "00:00:02,000" := by rw [formatSRTTime, t2]; rfl
  constructor
  · simp only [srtContent, List.enum, List.enumFrom, List.map, f0, f1, f32, f2]
    rfl
  · simp only [srtContent, List.enum, List.enumFrom, List.map, f0, f1, f32, f2]
    decide

/-- `numFrames = Math.floor(video.duration * 30)` together with the export
loop bound `i <= numFrames` from `handleExport` in `VideoEditor.tsx`: the
list of rendered frame indices. -/
def exportFrameIndices (duration : ℚ) : List ℕ :=
  List.range (⌊duration * 30⌋ + 1).toNat

/-- `captions.find(c => time >= c.start && time < c.end)` from the export
loop: the caption composited on a frame, if any. -/
def exportActiveCaption (captions : List Caption) (t : ℚ) : Option Caption :=
  captions.find? (fun c => decide (c.start ≤ t) && decide (t < c.stop))

/-- The export frame loop: for every frame index `i` from 0 to `numFrames`
inclusive, the frame time `i / 30` and the caption composited there. -/
def exportFrames (duration : ℚ) (captions : List Caption) :
    List (ℚ × Option Caption) :=
  (exportFrameIndices duration).map
    (fun (i : ℕ) => ((i : ℚ) / 30, exportActiveCaption captions ((i : ℚ) / 30)))

/-- C5: for every nonnegative duration `d`, export renders exactly
`floor(d * 30) + 1` frames, frame `i` is rendered at time `i / 30`, and
caption text is composited on frame `i` iff some caption's half-open
interval `[start, end)` contains `i / 30`. -/
theorem C5_export_frames (d : ℚ) (cs : List Caption) (hd : 0 ≤ d) :
    ((exportFrames d cs).length : ℤ) = ⌊d * 30⌋ + 1 ∧
    ∀ i, (hi : i < (exportFrames d cs).length) →
      ((exportFrames d cs)[i]).1 = (i : ℚ) / 30 ∧
      (((exportFrames d cs)[i]).2.isSome ↔
        ∃ c ∈ cs, c.start ≤ (i : ℚ) / 30 ∧ (i : ℚ) / 30 < c.stop) := by
  have hf : (0 : ℤ) ≤ ⌊d * 30⌋ + 1 := by
    have : (0 : ℤ) ≤ ⌊d * 30⌋ := Int.floor_nonneg.mpr (by positivity)
    omega
  constructor
  · rw [exportFrames, List.length_map, exportFrameIndices, List.length_range]
    exact Int.toNat_of_nonneg hf
  · intro i hi
    have hlen : (exportFrames d cs).length = (exportFrameIndices d).length := by
      rw [exportFrames, List.length_map]
    have hi2 : i < (exportFrameIndices d).length := hlen ▸ hi
    have hidx : (exportFrameIndices d)[i] = i := by
      simp only [exportFrameIndices] at hi2 ⊢
      exact List.getElem_range i hi2
    simp only [exportFrames, List.getElem_map, hidx]
    refine ⟨by trivial, ?_⟩
    simp [exportActiveCaption, List.find?_isSome, decide_eq_true_eq,
      Bool.and_eq_true]

/-- C5 witness: a 2-second clip yields exactly 61 frames. -/
theorem C5_export_frames_witness :
    (0 : ℚ) ≤ 2 ∧
    ((exportFrames 2 [⟨1/2, 3/2, "Hi"⟩]).length : ℤ) = ⌊(2 : ℚ) * 30⌋ + 1 ∧
    (exportFrames 2 [⟨1/2, 3/2, "Hi"⟩]).length = 61 := by
  refine ⟨by norm_num, (C5_export_frames 2 [⟨1/2, 3/2, "Hi"⟩] (by norm_num)).1, ?_⟩
  have h : ⌊(2 : ℚ) * 30⌋ = 60 := by norm_num
  rw [exportFrames, List.length_map, exportFrameIndices, List.length_range, h]
  decide

/-- `PIXELS_PER_SECOND_BASE` from the `Timeline` component. -/
def PIXELS_PER_SECOND_BASE : ℚ := 150

/-- `handleWheel` from `Timeline` (with ctrl/meta held): computes the new
zoom level, clamped to `[0.2, 5]`, and the scroll offset assigned to the
container so the time under the pointer keeps its pixel position. -/
def handleWheel (zoomLevel scrollLeft mouseX deltaY : ℚ) : ℚ × ℚ :=
  let pixelsPerSecond := PIXELS_PER_SECOND_BASE * zoomLevel
  let timeAtCursor := (scrollLeft + mouseX) / pixelsPerSecond
  let zoomFactor := -deltaY * (5/1000)
  let newZoom := max (2/10) (min 5 (zoomLevel + zoomFactor))
  let newPixelsPerSecond := PIXELS_PER_SECOND_BASE * newZoom
  (newZoom, timeAtCursor * newPixelsPerSecond - mouseX)

/-- C7: for every wheel-zoom input the new zoom is clamped to `[0.2, 5]`,
and the new scroll offset equals `timeAtCursor * (150 * newZoom) - mouseX`
with `timeAtCursor = (oldScrollLeft + mouseX) / (150 * oldZoom)`, so the
time under the pointer maps to the same pointer X afterwards. -/
theorem C7_wheel_zoom (zoomLevel scrollLeft mouseX deltaY : ℚ) :
    2/10 ≤ (handleWheel zoomLevel scrollLeft mouseX deltaY).1 ∧
    (handleWheel zoomLevel scrollLeft mouseX deltaY).1 ≤ 5 ∧
    (handleWheel zoomLevel scrollLeft mouseX deltaY).2 =
      ((scrollLeft + mouseX) / (150 * zoomLevel)) *
        (150 * (handleWheel zoomLevel scrollLeft mouseX deltaY).1) - mouseX := by
  refine ⟨le_max_left _ _, ?_, rfl⟩
  exact max_le (by norm_num) (min_le_left _ _)

/-- The drag mode classified on pointer-down (`DragState['mode']` in
`Timeline`). -/
inductive DragMode where
  | move
  | resizeStart
  | resizeEnd
deriving DecidableEq, Repr

/-- `SNAP_THRESHOLD_PX` from `handleMouseMove` in `Timeline`. -/
def SNAP_THRESHOLD_PX : ℚ := 6

/-- The first phase of `handleMouseMove` in `Timeline`: move or resize the
raw edges by `deltaTime` and snap an edge (for move, either edge, shifting
both) to the playhead when within the pixel threshold. -/
def dragSnap (mode : DragMode)
    (originalStart originalEnd deltaTime pixelsPerSecond currentTime : ℚ) :
    ℚ × ℚ :=
  match mode with
  | .move =>
      let s := originalStart + deltaTime
      let e := originalEnd + deltaTime
      if |s * pixelsPerSecond - currentTime * pixelsPerSecond| <
          SNAP_THRESHOLD_PX then
        (s + (currentTime - s), e + (currentTime - s))
      else if |e * pixelsPerSecond - currentTime * pixelsPerSecond| <
          SNAP_THRESHOLD_PX then
        (s + (currentTime - e), e + (currentTime - e))
      else (s, e)
  | .resizeStart =>
      let s := originalStart + deltaTime
      (if |s * pixelsPerSecond - currentTime * pixelsPerSecond| <
          SNAP_THRESHOLD_PX then currentTime else s,
        originalEnd)
  | .resizeEnd =>
      let e := originalEnd + deltaTime
      (originalStart,
        if |e * pixelsPerSecond - currentTime * pixelsPerSecond| <
          SNAP_THRESHOLD_PX then currentTime else e)

/-- The second phase of `handleMouseMove` in `Timeline`, applied to the
already-snapped edges in source order: clamp to `[0, duration]`, clamp
against the immediate neighbors, apply the 0.1 s minimum-duration floor for
the resize modes, then the move-mode boundary-duration reconstitutions. -/
def dragClamp (mode : DragMode) (originalStart originalEnd duration : ℚ)
    (prevEnd nextStart : Option ℚ) (se : ℚ × ℚ) : ℚ × ℚ :=
  let s1 := max 0 se.1
  let e1 := min duration se.2
  let s2 := match prevEnd with | some p => max s1 p | none => s1
  let e2 := match nextStart with | some n => min e1 n | none => e1
  let s3 := match mode with
    | .resizeStart => if s2 + 1/10 ≥ e2 then e2 - 1/10 else s2
    | _ => s2
  let e3 := match mode with
    | .resizeEnd => if s2 + 1/10 ≥ e2 then s2 + 1/10 else e2
    | _ => e2
  let e4 := match mode with
    | .move => if s3 = 0 then s3 + (originalEnd - originalStart) else e3
    | _ => e3
  let s4 := match mode with
    | .move => if e4 = duration then e4 - (originalEnd - originalStart) else s3
    | _ => s3
  (s4, e4)

/-- One `handleMouseMove` step of the Timeline drag, committed via a merged
`onCaptionTimeChange`: snap first, then the clamps. -/
def dragStep (mode : DragMode)
    (originalStart originalEnd deltaX pixelsPerSecond currentTime duration : ℚ)
    (prevEnd nextStart : Option ℚ) : ℚ × ℚ :=
  let deltaTime := deltaX / pixelsPerSecond
  dragClamp mode originalStart originalEnd duration prevEnd nextStart
    (dragSnap mode originalStart originalEnd deltaTime pixelsPerSecond
      currentTime)

/-- C1: the minimum-duration repair in `handleMouseMove` only covers the
resize modes, so a large move-mode drag commits an inverted caption.  With
caption `[1, 2]` between `prev.end = 1` and `next.start = 2` on a
10-second timeline (playhead at 9, 150 px/s), a 750 px rightward move
commits `start = 6 > end = 2`, violating `c.start < c.end` and the 0.1 s
floor. -/
theorem C1_move_inversion :
    dragStep .move 1 2 750 150 9 10 (some 1) (some 2) = (6, 2) ∧
    (dragStep .move 1 2 750 150 9 10 (some 1) (some 2)).2 <
      (dragStep .move 1 2 750 150 9 10 (some 1) (some 2)).1 := by
  have hstruct : dragStep .move 1 2 750 150 9 10 (some 1) (some 2) =
      dragClamp .move 1 2 10 (some 1) (some 2)
        (dragSnap .move 1 2 (750/150) 150 9) := rfl
  have hsnap : dragSnap .move 1 2 (750/150) 150 9 = (6, 7) := by
    unfold dragSnap SNAP_THRESHOLD_PX
    norm_num [abs_lt]
  have hclamp : dragClamp .move 1 2 10 (some 1) (some 2) (6, 7) = (6, 2) := by
    unfold dragClamp
    norm_num [max_def, min_def]
  have h : dragStep .move 1 2 750 150 9 10 (some 1) (some 2) = (6, 2) := by
    rw [hstruct, hsnap, hclamp]
  refine ⟨h, ?_⟩
  rw [h]
  norm_num

lemma dragClamp_neighbors (mode : DragMode) (origS origE D p n : ℚ)
    (se : ℚ × ℚ)
    (h0 : 0 ≤ origS) (hdur : origS + 1/10 ≤ origE) (hD : origE ≤ D)
    (hp : p ≤ origS) (hn : origE ≤ n)
    (hs1 : mode = .resizeEnd → se.1 = origS)
    (hs2 : mode = .resizeStart → se.2 = origE) :
    p ≤ (dragClamp mode origS origE D (some p) (some n) se).1 ∧
    (dragClamp mode origS origE D (some p) (some n) se).2 ≤ n := by
  obtain ⟨a, b⟩ := se
  cases mode with
  | move =>
      have hmax : p ≤ max (max 0 a) p := le_max_right _ _
      have hminn : min (min D b) n ≤ n := min_le_right _ _
      unfold dragClamp
      simp only
      split_ifs <;> constructor <;> linarith
  | resizeStart =>
      have hb : b = origE := hs2 rfl
      have hmax : p ≤ max (max 0 a) p := le_max_right _ _
      have e2eq : min (min D origE) n = origE := by
        rw [min_eq_right hD, min_eq_left hn]
      unfold dragClamp
      simp only [hb, e2eq]
      split_ifs <;> constructor <;> linarith
  | resizeEnd =>
      have ha : a = origS := hs1 rfl
      have hminn : min (min D b) n ≤ n := min_le_right _ _
      have s2eq : max (max 0 origS) p = origS := by
        rw [max_eq_right h0, max_eq_left hp]
      unfold dragClamp
      simp only [ha, s2eq]
      split_ifs <;> constructor <;> linarith

/-- Modelled from the spec: the constraint pipeline in the order claim C6
states it — clamp to `[0, duration]` first, then clamp against the
immediate neighbors, then snap the moving edge (for move, either edge) to
the playhead within the pixel threshold, then the 0.1 s minimum-duration
floor.  Defined only for comparison with the source-order `dragStep`. -/
def dragStepSpecOrder (mode : DragMode)
    (originalStart originalEnd deltaX pixelsPerSecond currentTime duration : ℚ)
    (prevEnd nextStart : Option ℚ) : ℚ × ℚ :=
  let deltaTime := deltaX / pixelsPerSecond
  let s0 := match mode with
    | .resizeEnd => originalStart
    | _ => originalStart + deltaTime
  let e0 := match mode with
    | .resizeStart => originalEnd
    | _ => originalEnd + deltaTime
  let s1 := max 0 s0
  let e1 := min duration e0
  let s2 := match prevEnd with | some p => max s1 p | none => s1
  let e2 := match nextStart with | some n => min e1 n | none => e1
  let s3 := match mode with
    | .resizeEnd => s2
    | .resizeStart =>
        if |s2 * pixelsPerSecond - currentTime * pixelsPerSecond| <
          SNAP_THRESHOLD_PX then currentTime else s2
    | .move =>
        if |s2 * pixelsPerSecond - currentTime * pixelsPerSecond| <
          SNAP_THRESHOLD_PX then currentTime
        else if |e2 * pixelsPerSecond - currentTime * pixelsPerSecond| <
          SNAP_THRESHOLD_PX then s2 + (currentTime - e2)
        else s2
  let e3 := match mode with
    | .resizeStart => e2
    | .resizeEnd =>
        if |e2 * pixelsPerSecond - currentTime * pixelsPerSecond| <
          SNAP_THRESHOLD_PX then currentTime else e2
    | .move =>
        if |s2 * pixelsPerSecond - currentTime * pixelsPerSecond| <
          SNAP_THRESHOLD_PX then e2 + (currentTime - s2)
        else if |e2 * pixelsPerSecond - currentTime * pixelsPerSecond| <
          SNAP_THRESHOLD_PX then currentTime
        else e2
  let s4 := match mode with
    | .resizeStart => if s3 + 1/10 ≥ e3 then e3 - 1/10 else s3
    | _ => s3
  let e4 := match mode with
    | .resizeEnd => if s3 + 1/10 ≥ e3 then s3 + 1/10 else e3
    | _ => e3
  (s4, e4)

/-- C6: the code does not apply the claim's stated order; it snaps before
the neighbor clamp.  A resize-end drag of caption `[0, 1]` to a proposed
end 1.19 with `next.start = 1.2` and the playhead at 1.21 (150 px/s, so the
3 px gap is within the 6 px snap threshold) commits end `1.2` under the
code, while the claimed clamp-then-snap order would commit `1.21`,
violating the very neighbor bound the claim asserts. -/
theorem C6_counterexample :
    dragStep .resizeEnd 0 1 (57/2) 150 (121/100) 10 none (some (6/5)) =
      (0, 6/5) ∧
    dragStepSpecOrder .resizeEnd 0 1 (57/2) 150 (121/100) 10 none
      (some (6/5)) = (0, 121/100) ∧
    ¬ ((dragStepSpecOrder .resizeEnd 0 1 (57/2) 150 (121/100) 10 none
        (some (6/5))).2 ≤ 6/5) := by
  have hstruct : dragStep .resizeEnd 0 1 (57/2) 150 (121/100) 10 none
      (some (6/5)) =
      dragClamp .resizeEnd 0 1 10 none (some (6/5))
        (dragSnap .resizeEnd 0 1 ((57/2)/150) 150 (121/100)) := rfl
  have hsnap : dragSnap .resizeEnd 0 1 ((57/2)/150) 150 (121/100) =
      (0, 121/100) := by
    unfold dragSnap SNAP_THRESHOLD_PX
    norm_num [abs_lt]
  have hclamp : dragClamp .resizeEnd 0 1 10 none (some (6/5))
      (0, 121/100) = (0, 6/5) := by
    unfold dragClamp
    norm_num [max_def, min_def]
  have hspec : dragStepSpecOrder .resizeEnd 0 1 (57/2) 150 (121/100) 10 none
      (some (6/5)) = (0, 121/100) := by
    unfold dragStepSpecOrder SNAP_THRESHOLD_PX
    norm_num [abs_lt, max_def, min_def]
  refine ⟨by rw [hstruct, hsnap, hclamp], hspec, ?_⟩
  rw [hspec]
  norm_num

/-- C6 (amended): `handleMouseMove` applies the snap first (inside the mode
branch, on the raw moved edges), then clamps to `[0, duration]`, then
clamps against the immediate neighbors, then applies the minimum-duration
floor and the move-mode boundary reconstitution — `dragStep` is by
definition `dragClamp` after `dragSnap`.  Because the neighbor clamp
follows the snap, for any caption satisfying the editing invariants
(`0 ≤ start`, `start + 0.1 ≤ end ≤ duration`, `prev.end ≤ start`,
`end ≤ next.start`) the committed value respects the neighbor bounds in
every mode. -/
theorem C6_snap_then_clamp (mode : DragMode)
    (origS origE deltaX pps ct D p n : ℚ)
    (h0 : 0 ≤ origS) (hdur : origS + 1/10 ≤ origE) (hD : origE ≤ D)
    (hp : p ≤ origS) (hn : origE ≤ n) :
    dragStep mode origS origE deltaX pps ct D (some p) (some n) =
      dragClamp mode origS origE D (some p) (some n)
        (dragSnap mode origS origE (deltaX / pps) pps ct) ∧
    p ≤ (dragStep mode origS origE deltaX pps ct D (some p) (some n)).1 ∧
    (dragStep mode origS origE deltaX pps ct D (some p) (some n)).2 ≤ n := by
  refine ⟨rfl, ?_⟩
  have hs1 : mode = .resizeEnd →
      (dragSnap mode origS origE (deltaX / pps) pps ct).1 = origS := by
    intro hm
    subst hm
    rfl
  have hs2 : mode = .resizeStart →
      (dragSnap mode origS origE (deltaX / pps) pps ct).2 = origE := by
    intro hm
    subst hm
    rfl
  exact dragClamp_neighbors mode origS origE D p n _ h0 hdur hD hp hn hs1 hs2

/-- C6 (amended) witness: a concrete resize-end drag between two neighbors
stays within the neighbor bounds. -/
theorem C6_snap_then_clamp_witness :
    (0 : ℚ) ≤ 2 ∧ (2 : ℚ) + 1/10 ≤ 3 ∧ (3 : ℚ) ≤ 10 ∧ (1 : ℚ) ≤ 2 ∧
    (3 : ℚ) ≤ 4 ∧
    1 ≤ (dragStep .resizeEnd 2 3 30 150 0 10 (some 1) (some 4)).1 ∧
    (dragStep .resizeEnd 2 3 30 150 0 10 (some 1) (some 4)).2 ≤ 4 :=
  ⟨by norm_num, by norm_num, by norm_num, by norm_num, by norm_num,
    (C6_snap_then_clamp .resizeEnd 2 3 30 150 0 10 1 4 (by norm_num)
      (by norm_num) (by norm_num) (by norm_num) (by norm_num)).2.1,
    (C6_snap_then_clamp .resizeEnd 2 3 30 150 0 10 1 4 (by norm_num)
      (by norm_num) (by norm_num) (by norm_num) (by norm_num)).2.2⟩

lemma currentState_commit (u : EditorState → EditorState) (h : History)
    (st : EditorState) (hst : currentState h = some st) :
    (updateState u false h).cursor = h.cursor + 1 ∧
    (updateState u false h).snapshots =
      h.snapshots.take (h.cursor + 1) ++ [u st] ∧
    currentState (updateState u false h) = some (u st) := by
  have hlt : h.cursor < h.snapshots.length :=
    (List.getElem?_eq_some.mp hst).1
  have hget : h.snapshots[h.cursor]? = some st := hst
  have e1 : (updateState u false h).snapshots =
      h.snapshots.take (h.cursor + 1) ++ [u st] := by
    simp [updateState, hget]
  have e2 : (updateState u false h).cursor = h.cursor + 1 := by
    simp [updateState, hget]
  refine ⟨e2, e1, ?_⟩
  have htk : (h.snapshots.take (h.cursor + 1)).length = h.cursor + 1 := by
    simp [List.length_take]
    omega
  rw [currentState, e2, e1, List.getElem?_append_right (by omega), htk]
  simp

/-- The JavaScript `[...prev.captions].sort((a, b) => a.start - b.start)`
from `handleAddCaption`: a stable sort by start time. -/
def sortCaptions (cs : List Caption) : List Caption :=
  cs.mergeSort (fun a b => a.start ≤ b.start)

/-- The body of `handleAddCaption`'s updater in `VideoEditor.tsx`, split
out as a partial result: `none` when the 0.1 s check fails (the source
alerts and returns `prev`), otherwise the new caption list.  The proposed
caption is `{start: time, end: min(time + 2, videoDuration)}`; its start is
clamped up to the previous caption's end and (in the insert-in-middle case)
its end down to the next caption's start. -/
def addCaptionResult (time duration : ℚ) (captions : List Caption) :
    Option (List Caption) :=
  let baseStart := time
  let baseStop := min (time + 2) duration
  let sorted := sortCaptions captions
  match sorted.findIdx? (fun c => decide (time < c.start)) with
  | none =>
      let start := match sorted.getLast? with
        | some last => if baseStart < last.stop then last.stop else baseStart
        | none => baseStart
      if baseStop - start < 1/10 then none
      else some (sorted ++ [⟨start, baseStop, "New Caption"⟩])
  | some i =>
      let start := match i, sorted[i - 1]? with
        | 0, _ => baseStart
        | _ + 1, some pc => if baseStart < pc.stop then pc.stop else baseStart
        | _ + 1, none => baseStart
      let stop := match sorted[i]? with
        | some nc => if baseStop > nc.start then nc.start else baseStop
        | none => baseStop
      if stop - start < 1/10 then none
      else some (sorted.take i ++ [⟨start, stop, "New Caption"⟩] ++
        sorted.drop i)

/-- The updater passed to `updateState` by `handleAddCaption`: on refusal
the source alerts and returns `prev` unchanged. -/
def handleAddCaption (time duration : ℚ) (prev : EditorState) : EditorState :=
  match addCaptionResult time duration prev.captions with
  | none => prev
  | some cs => { prev with captions := cs }

lemma addCaptionResult_refused_ex :
    addCaptionResult (1/2) 1 exState1.captions = none := by
  have hsort : sortCaptions exState1.captions = [⟨0, 1, "x"⟩] := by
    simp [sortCaptions, exState1]
  rw [addCaptionResult]
  simp only [hsort]
  norm_num [List.findIdx?, List.getLast?]

/-- C9: when `handleAddCaption` refuses (no placement of at least 0.1 s),
the refusal path still issues a non-merged commit of the unchanged
snapshot: from a one-entry history the snapshot count becomes 2 and the
cursor advances to 1, contradicting the claim that history length and
cursor stay the same. -/
theorem C9_counterexample :
    addCaptionResult (1/2) 1 exState1.captions = none ∧
    (updateState (handleAddCaption (1/2) 1) false
        { snapshots := [exState1], cursor := 0 }).snapshots.length = 2 ∧
    (updateState (handleAddCaption (1/2) 1) false
        { snapshots := [exState1], cursor := 0 }).cursor = 1 := by
  refine ⟨addCaptionResult_refused_ex, ?_, ?_⟩ <;>
    simp [updateState]

/-- C9 (amended): when no valid placement of at least 0.1 s exists, the
caption list and styles are unchanged (the committed snapshot equals the
prior one), but the edit is not a no-op on history: `updateState` is still
called without merge, so the history is truncated after the cursor, a
duplicate snapshot is appended, and the cursor advances by one. -/
theorem C9_add_refused (time dur : ℚ) (h : History) (st : EditorState)
    (hst : currentState h = some st)
    (href : addCaptionResult time dur st.captions = none) :
    handleAddCaption time dur st = st ∧
    (updateState (handleAddCaption time dur) false h).cursor = h.cursor + 1 ∧
    (updateState (handleAddCaption time dur) false h).snapshots =
      h.snapshots.take (h.cursor + 1) ++ [st] ∧
    currentState (updateState (handleAddCaption time dur) false h) =
      some st := by
  have hid : handleAddCaption time dur st = st := by
    rw [handleAddCaption, href]
  obtain ⟨e2, e1, e3⟩ := currentState_commit (handleAddCaption time dur) h st hst
  rw [hid] at e1 e3
  exact ⟨hid, e2, e1, e3⟩

/-- C9 witness: the concrete refused add commits a duplicate snapshot. -/
theorem C9_add_refused_witness :
    currentState { snapshots := [exState1], cursor := 0 } = some exState1 ∧
    currentState (updateState (handleAddCaption (1/2) 1) false
        { snapshots := [exState1], cursor := 0 }) = some exState1 :=
  ⟨by decide,
    (C9_add_refused (1/2) 1 { snapshots := [exState1], cursor := 0 } exState1
      (by decide) addCaptionResult_refused_ex).2.2.2⟩

/-- The `newCaptions.splice(index, 1, firstPart, secondPart)` of
`handleSplitCaption`: the caption at `index` is replaced by its two halves
split at `time` (both keep the original text). -/
def spliceSplit (i : ℕ) (time : ℚ) (cs : List Caption) : List Caption :=
  match cs[i]? with
  | some orig => cs.take i ++ [{ orig with stop := time },
      { orig with start := time }] ++ cs.drop (i + 1)
  | none => cs

/-- `handleSplitCaption` from `VideoEditor.tsx`: read the playhead time and
the caption at `index` from the current snapshot; if the time is undefined
or not strictly inside the caption, return without committing; otherwise
commit the spliced list through a non-merged `updateState`. -/
def handleSplitCaption (index : ℕ) (time : Option ℚ) (h : History) : History :=
  match time with
  | none => h
  | some t =>
      match currentState h with
      | none => h
      | some st =>
          match st.captions[index]? with
          | none => h
          | some c =>
              if c.start < t ∧ t < c.stop then
                updateState
                  (fun prev =>
                    { prev with captions := spliceSplit index t prev.captions })
                  false h
              else h

/-- C10: splitting caption `i` at a playhead time strictly inside it
replaces it by exactly the two tiles `[start, t]` and `[t, end]` (same
text) at positions `i` and `i+1`, leaves every other caption and the styles
unchanged, and grows the caption count by one; a playhead at or outside the
caption's edges leaves the editor state unchanged. -/
theorem C10_split (h : History) (st : EditorState) (i : ℕ) (t : ℚ)
    (hst : currentState h = some st) (hi : i < st.captions.length) :
    (st.captions[i].start < t → t < st.captions[i].stop →
      currentState (handleSplitCaption i (some t) h) =
        some ⟨st.captions.take i ++
            [⟨st.captions[i].start, t, st.captions[i].text⟩,
              ⟨t, st.captions[i].stop, st.captions[i].text⟩] ++
            st.captions.drop (i + 1), st.styles⟩ ∧
      (st.captions.take i ++
          [⟨st.captions[i].start, t, st.captions[i].text⟩,
            ⟨t, st.captions[i].stop, st.captions[i].text⟩] ++
          st.captions.drop (i + 1) : List Caption).length =
        st.captions.length + 1) ∧
    (t ≤ st.captions[i].start ∨ st.captions[i].stop ≤ t →
      handleSplitCaption i (some t) h = h) := by
  have hget : st.captions[i]? = some st.captions[i] :=
    List.getElem?_eq_getElem hi
  constructor
  · intro h1 h2
    have hguard : handleSplitCaption i (some t) h =
        updateState
          (fun prev => { prev with captions := spliceSplit i t prev.captions })
          false h := by
      simp only [handleSplitCaption, hst, hget, if_pos (And.intro h1 h2)]
    have hsplice : spliceSplit i t st.captions =
        st.captions.take i ++
          [⟨st.captions[i].start, t, st.captions[i].text⟩,
            ⟨t, st.captions[i].stop, st.captions[i].text⟩] ++
          st.captions.drop (i + 1) := by
      rw [spliceSplit, hget]
    obtain ⟨e2, e1, e3⟩ := currentState_commit
      (fun prev => { prev with captions := spliceSplit i t prev.captions })
      h st hst
    refine ⟨?_, ?_⟩
    · rw [hguard, e3]
      simp only [hsplice]
    · simp [List.length_take]
      omega
  · intro hout
    have hneg : ¬ (st.captions[i].start < t ∧ t < st.captions[i].stop) := by
      intro hcon
      rcases hout with hle | hge
      · exact absurd hcon.1 (not_lt.mpr hle)
      · exact absurd hcon.2 (not_lt.mpr hge)
    simp only [handleSplitCaption, hst, hget, if_neg hneg]

/-- C10 witness: splitting the caption `[0, 2]` at playhead 1 yields the
two tiles `[0, 1]` and `[1, 2]` with the styles untouched. -/
theorem C10_split_witness :
    currentState (handleSplitCaption 0 (some 1)
        ⟨[⟨[⟨0, 2, "A"⟩], exStyles⟩], 0⟩) =
      some ⟨[⟨0, 1, "A"⟩, ⟨1, 2, "A"⟩], exStyles⟩ := by
  have happ := (C10_split ⟨[⟨[⟨0, 2, "A"⟩], exStyles⟩], 0⟩
    ⟨[⟨0, 2, "A"⟩], exStyles⟩ 0 1
    (by decide) (by decide)).1 (by decide) (by decide)
  rw [happ.1]
  decide

/-- Character-additive text measurement: the width of a string is the sum
of its characters' widths.  This realizes the claim's assumption that a
line's width is the sum of its words' widths plus the separating spaces
(`ctx.measureText` in `drawText`). -/
def strWidth (cw : Char → ℚ) (s : String) : ℚ :=
  (s.data.map cw).sum

/-- The word-accumulation loop of `drawText` in `VideoEditor.tsx` for one
explicit line, the pushes onto `allLines` realized as the recursion
unwinds: `testLine = currentLine ? currentLine + ' ' + word : word`; when
the test line overflows and the current line is nonempty, push the current
line and restart from the word, else continue with the test line; push the
final current line. -/
def wrapAux (cw : Char → ℚ) (maxW : ℚ) (currentLine : String) :
    List String → List String
  | [] => [currentLine]
  | word :: rest =>
      if strWidth cw (if currentLine = "" then word
          else currentLine ++ " " ++ word) > maxW ∧ currentLine ≠ "" then
        currentLine :: wrapAux cw maxW word rest
      else wrapAux cw maxW
        (if currentLine = "" then word else currentLine ++ " " ++ word) rest

/-- Greedy word-wrap of one explicit line, given as its word list
(`initialLine.split(' ')` in the source). -/
def wrapWords (cw : Char → ℚ) (maxW : ℚ) (ws : List String) : List String :=
  wrapAux cw maxW "" ws

/-- The space-join of a word list in the exact accumulation order of the
loop: join with a space except onto an empty accumulator. -/
def joinWords (c : String) : List String → String
  | [] => c
  | w :: ws => joinWords (if c = "" then w else c ++ " " ++ w) ws

lemma strWidth_append (cw : Char → ℚ) (a b : String) :
    strWidth cw (a ++ b) = strWidth cw a + strWidth cw b := by
  simp [strWidth, String.data_append]

lemma strWidth_nonneg (cw : Char → ℚ) (hcw : ∀ ch, 0 ≤ cw ch) (s : String) :
    0 ≤ strWidth cw s := by
  apply List.sum_nonneg
  intro x hx
  obtain ⟨ch, _, rfl⟩ := List.mem_map.mp hx
  exact hcw ch

lemma joinWords_append (c : String) (xs ys : List String) :
    joinWords c (xs ++ ys) = joinWords (joinWords c xs) ys := by
  induction xs generalizing c with
  | nil => rfl
  | cons x xs ih => simp only [List.cons_append, joinWords]; exact ih _

lemma joinWords_mono (cw : Char → ℚ) (hcw : ∀ ch, 0 ≤ cw ch)
    (ws : List String) (c : String) :
    strWidth cw c ≤ strWidth cw (joinWords c ws) := by
  induction ws generalizing c with
  | nil => exact le_refl _
  | cons w ws ih =>
      refine le_trans ?_ (ih (if c = "" then w else c ++ " " ++ w))
      split_ifs with hc
      · subst hc
        have : strWidth cw "" = 0 := rfl
        rw [this]
        exact strWidth_nonneg cw hcw w
      · rw [strWidth_append, strWidth_append]
        have h1 : 0 ≤ strWidth cw " " := strWidth_nonneg cw hcw _
        have h2 : 0 ≤ strWidth cw w := strWidth_nonneg cw hcw w
        linarith

lemma wrapAux_no_break (cw : Char → ℚ) (maxW : ℚ) (hcw : ∀ ch, 0 ≤ cw ch)
    (ws : List String) (c : String)
    (h : strWidth cw (joinWords c ws) ≤ maxW) :
    wrapAux cw maxW c ws = [joinWords c ws] := by
  induction ws generalizing c with
  | nil => rfl
  | cons w rest ih =>
      have hjoin : joinWords c (w :: rest) =
          joinWords (if c = "" then w else c ++ " " ++ w) rest := rfl
      have hle : strWidth cw (if c = "" then w else c ++ " " ++ w) ≤ maxW := by
        refine le_trans (joinWords_mono cw hcw rest _) ?_
        rw [← hjoin]
        exact h
      rw [wrapAux]
      rw [if_neg]
      · exact ih _ (by rw [← hjoin] at *; exact h)
      · intro hcon
        exact absurd hle (not_le.mpr hcon.1)

lemma joinWords_eq_empty (ws : List String) (c : String)
    (h : joinWords c ws = "") : c = "" ∧ ∀ w ∈ ws, w = "" := by
  induction ws generalizing c with
  | nil => exact ⟨h, by simp⟩
  | cons w rest ih =>
      have h2 : joinWords (if c = "" then w else c ++ " " ++ w) rest = "" := h
      obtain ⟨htest, hrest⟩ := ih _ h2
      by_cases hc : c = ""
      · subst hc
        simp only [if_pos rfl] at htest
        subst htest
        exact ⟨rfl, by simpa using hrest⟩
      · exfalso
        rw [if_neg hc] at htest
        have hlen := congrArg String.length htest
        rw [String.length_append, String.length_append] at hlen
        have hsp : (" " : String).length = 1 := rfl
        have hz : ("" : String).length = 0 := rfl
        rw [hsp, hz] at hlen
        omega



lemma wrapWords_singleton (cw : Char → ℚ) (maxW : ℚ) (w : String) :
    wrapWords cw maxW [w] = [w] := by
  rw [wrapWords, wrapAux, if_neg (fun hcon => hcon.2 rfl), wrapAux]
  simp

lemma joinWords_singleton (w : String) : joinWords "" [w] = w := by
  rw [joinWords]
  simp [joinWords]

lemma wrapAux_skip_empty (cw : Char → ℚ) (maxW : ℚ) (ws : List String) :
    wrapAux cw maxW "" ("" :: ws) = wrapAux cw maxW "" ws := by
  rw [wrapAux, if_neg (fun hcon => hcon.2 rfl)]
  simp

lemma joinWords_skip_empty (ws : List String) :
    joinWords "" ("" :: ws) = joinWords "" ws := by
  rw [joinWords]
  simp

lemma wrapAux_empties (cw : Char → ℚ) (maxW : ℚ) (cb ws : List String)
    (h : ∀ w ∈ cb, w = "") :
    wrapAux cw maxW "" (cb ++ ws) = wrapAux cw maxW "" ws ∧
    joinWords "" (cb ++ ws) = joinWords "" ws := by
  induction cb with
  | nil => exact ⟨rfl, rfl⟩
  | cons x cb ih =>
      have hx : x = "" := h x (by simp)
      subst hx
      have h2 : ∀ w ∈ cb, w = "" := fun w hw => h w (by simp [hw])
      obtain ⟨ha, hb⟩ := ih h2
      constructor
      · rw [List.cons_append, wrapAux_skip_empty, ha]
      · rw [List.cons_append, joinWords_skip_empty, hb]

lemma good_extend (cw : Char → ℚ) (maxW : ℚ) (hcw : ∀ ch, 0 ≤ cw ch)
    (cb : List String) (w : String)
    (h : strWidth cw (joinWords "" (cb ++ [w])) ≤ maxW ∨
      joinWords "" cb = "") :
    wrapWords cw maxW (cb ++ [w]) = [joinWords "" (cb ++ [w])] := by
  rcases h with hle | hemp
  · exact wrapAux_no_break cw maxW hcw _ _ hle
  · obtain ⟨-, hall⟩ := joinWords_eq_empty cb "" hemp
    obtain ⟨ha, hb⟩ := wrapAux_empties cw maxW cb [w] hall
    rw [wrapWords, ha, hb, joinWords_singleton]
    exact wrapWords_singleton cw maxW w

lemma wrapAux_blocks (cw : Char → ℚ) (maxW : ℚ) (hcw : ∀ ch, 0 ≤ cw ch) :
    ∀ (ws cb : List String), cb ≠ [] →
    wrapWords cw maxW cb = [joinWords "" cb] →
    ∃ (B : List String) (blocks : List (List String)),
      wrapAux cw maxW (joinWords "" cb) ws =
        joinWords "" (cb ++ B) :: blocks.map (joinWords "") ∧
      (cb ++ B) ++ blocks.flatten = cb ++ ws ∧
      wrapWords cw maxW (cb ++ B) = [joinWords "" (cb ++ B)] ∧
      ∀ b ∈ blocks, b ≠ [] ∧ wrapWords cw maxW b = [joinWords "" b] := by
  intro ws
  induction ws with
  | nil =>
      intro cb hne hgood
      refine ⟨[], [], ?_, by simp, by simpa using hgood, by simp⟩
      simp [wrapAux]
  | cons w rest ih =>
      intro cb hne hgood
      have htest : joinWords "" (cb ++ [w]) =
          (if joinWords "" cb = "" then w
            else joinWords "" cb ++ " " ++ w) := by
        rw [joinWords_append]
        rfl
      by_cases hpush : strWidth cw (if joinWords "" cb = "" then w
          else joinWords "" cb ++ " " ++ w) > maxW ∧ joinWords "" cb ≠ ""
      · have hunfold : wrapAux cw maxW (joinWords "" cb) (w :: rest) =
            joinWords "" cb :: wrapAux cw maxW w rest := by
          rw [wrapAux, if_pos hpush]
        obtain ⟨B2, blocks2, h1, h2, h3, h4⟩ := ih [w] (by simp)
          (wrapWords_singleton cw maxW w)
        rw [joinWords_singleton] at h1
        refine ⟨[], ([w] ++ B2) :: blocks2, ?_, ?_, by simpa using hgood, ?_⟩
        · rw [hunfold, h1]
          simp
        · simp only [List.append_nil, List.flatten_cons]
          rw [h2]
          simp
        · rintro b hb
          rcases List.mem_cons.mp hb with rfl | hb2
          · exact ⟨by simp, h3⟩
          · exact h4 b hb2
      · have hunfold : wrapAux cw maxW (joinWords "" cb) (w :: rest) =
            wrapAux cw maxW (if joinWords "" cb = "" then w
              else joinWords "" cb ++ " " ++ w) rest := by
          rw [wrapAux, if_neg hpush]
        have hgood2 : wrapWords cw maxW (cb ++ [w]) =
            [joinWords "" (cb ++ [w])] := by
          apply good_extend cw maxW hcw
          rcases not_and_or.mp hpush with hle | hemp
          · left
            rw [htest]
            exact not_lt.mp hle
          · right
            exact not_not.mp hemp
        obtain ⟨B2, blocks2, h1, h2, h3, h4⟩ := ih (cb ++ [w]) (by simp) hgood2
        rw [← htest] at hunfold
        refine ⟨[w] ++ B2, blocks2, ?_, ?_, ?_, h4⟩
        · rw [hunfold, h1, List.append_assoc]
        · simp only [List.append_assoc, List.singleton_append] at h2 ⊢
          exact h2
        · rw [← List.append_assoc]
          exact h3

/-- C8: the word-wrap loop of `drawText` is greedy per explicit line and
decomposes the line's words into contiguous nonempty blocks: each output
line is the space-join of one block (so no word is ever broken and every
output line keeps at least one word), and re-wrapping any produced line
(its block re-joined with spaces) at the same max width reproduces that
single line — idempotence — under the claim's assumption that a line's
width is the sum of its characters' widths (hence of its words' widths plus
separating spaces), widths being nonnegative. -/
theorem C8_wordwrap (cw : Char → ℚ) (maxW : ℚ) (ws : List String)
    (hcw : ∀ ch, 0 ≤ cw ch) (hws : ws ≠ []) :
    ∃ blocks : List (List String),
      blocks.flatten = ws ∧
      (∀ B ∈ blocks, B ≠ []) ∧
      wrapWords cw maxW ws = blocks.map (joinWords "") ∧
      ∀ B ∈ blocks, wrapWords cw maxW B = [joinWords "" B] := by
  obtain ⟨w, rest, rfl⟩ := List.exists_cons_of_ne_nil hws
  have hstep : wrapWords cw maxW (w :: rest) = wrapAux cw maxW w rest := by
    rw [wrapWords, wrapAux, if_neg (fun hcon => hcon.2 rfl)]
    simp
  obtain ⟨B, blocks, h1, h2, h3, h4⟩ := wrapAux_blocks cw maxW hcw rest [w]
    (by simp) (wrapWords_singleton cw maxW w)
  rw [joinWords_singleton] at h1
  refine ⟨([w] ++ B) :: blocks, ?_, ?_, ?_, ?_⟩
  · simp only [List.flatten_cons]
    rw [h2]
    simp
  · rintro b hb
    rcases List.mem_cons.mp hb with rfl | hb2
    · simp
    · exact (h4 b hb2).1
  · rw [hstep, h1]
    simp
  · rintro b hb
    rcases List.mem_cons.mp hb with rfl | hb2
    · exact h3
    · exact (h4 b hb2).2

/-- C8 witness: a concrete wrap instance satisfying the hypotheses. -/
theorem C8_wordwrap_witness :
    (["ab", "cd"] : List String) ≠ [] ∧
    ∃ blocks : List (List String),
      blocks.flatten = ["ab", "cd"] ∧
      (∀ B ∈ blocks, B ≠ []) ∧
      wrapWords (fun _ => 1) 3 ["ab", "cd"] = blocks.map (joinWords "") ∧
      ∀ B ∈ blocks, wrapWords (fun _ => 1) 3 B = [joinWords "" B] :=
  ⟨by decide, C8_wordwrap (fun _ => 1) 3 ["ab", "cd"]
    (fun ch => by norm_num) (by decide)⟩

end CaptionEditor
